import Mathlib

/-!
Verification development for the secret-manager repository.

The secret-manager service (`backend/secret_manager/service.py`) works over a
relational store with tables `users(github_id)`, `secrets(id, key, value,
owner_id)` and `shares(id, secret_id, user_id)` (`backend/secret_manager/models.py`,
`backend/auth/models.py`).  We embed the store as insertion-ordered lists of
records; `session_scope` (`backend/database.py`) commits on normal return and
rolls back on an exception, which we model by returning the original database
on every error path.

The auth service (`backend/auth/service.py`) keeps two in-memory dictionaries,
`OAUTH_STATE_STORE` and `SESSION_STORE`, embedded below as association lists
with Python-dict semantics (assignment replaces in place, `pop` removes the
first binding).  Time is modelled as a natural-number clock passed to each
operation; the `clock` field of `World` records the time of the last operation
so that monotonicity of time can be stated.
-/

namespace SecretManager

/-- A row of the `secrets` table (`models.py`: id, key, value, owner_id). -/
structure SecretRec where
  id : Nat
  key : String
  value : String
  owner_id : String
  deriving DecidableEq, Repr

/-- A row of the `shares` table (`models.py`: id, secret_id, user_id). -/
structure ShareRec where
  id : Nat
  secret_id : Nat
  user_id : String
  deriving DecidableEq, Repr

/-- The relational store: `users` holds github ids, `secrets` and `shares`
the two tables in insertion order; `nextSecretId`/`nextShareId` model the
autoincrement primary keys. -/
structure DB where
  users : List String
  secrets : List SecretRec
  shares : List ShareRec
  nextSecretId : Nat
  nextShareId : Nat
  deriving DecidableEq, Repr

def DB.init : DB := ⟨[], [], [], 0, 0⟩

/-- Error taxonomy of the secret-manager service: `ValueError("Key exists …")`
surfaces as Conflict, `LookupError`/missing rows as NotFound. -/
inductive SMErr where
  | conflict
  | notFound
  deriving DecidableEq, Repr

/-- `put_secret` (service.py lines 10-23): get-or-create the owner user, fail
if a secret with this (owner, key) exists, else insert.  The rollback of
`session_scope` on the raise discards the user insertion, so the error branch
returns the original database. -/
def putSecret (db : DB) (owner key value : String) : Except SMErr Unit × DB :=
  let users1 := if owner ∈ db.users then db.users else db.users ++ [owner]
  match db.secrets.find? (fun s => s.owner_id = owner ∧ s.key = key) with
  | some _ => (.error .conflict, db)
  | none =>
      (.ok (), { users := users1,
                 secrets := db.secrets ++ [⟨db.nextSecretId, key, value, owner⟩],
                 shares := db.shares,
                 nextSecretId := db.nextSecretId + 1,
                 nextShareId := db.nextShareId })

/-- The join `select(Secret).join(Secret.shares).where(Share.user == me)`:
one row per share of `caller`, resolved to its secret. -/
def sharedSecrets (db : DB) (caller : String) : List SecretRec :=
  db.shares.filterMap (fun sh =>
    if sh.user_id = caller then db.secrets.find? (fun s => s.id = sh.secret_id) else none)

/-- `get_secret_for_user` (service.py lines 26-40): `None` when the caller has
no user row; else the caller's own secret with this key if any, else the first
secret with this key shared to the caller. -/
def getSecretForUser (db : DB) (caller key : String) : Option SecretRec :=
  if caller ∈ db.users then
    match db.secrets.find? (fun s => s.key = key ∧ s.owner_id = caller) with
    | some s => some s
    | none => (sharedSecrets db caller).find? (fun s => s.key = key)
  else none

/-- `list_visible` (service.py lines 43-56): owned secrets followed by shared
ones, each reported as (key, value, owner_id). -/
def listVisible (db : DB) (caller : String) : List (String × String × String) :=
  if caller ∈ db.users then
    (db.secrets.filter (fun s => s.owner_id = caller) ++ sharedSecrets db caller).map
      (fun s => (s.key, s.value, s.owner_id))
  else []

/-- `share_secret` (service.py lines 59-79): owner and the owner's secret must
exist; the target user is created if absent; an existing grant makes the call
a no-op (the early `return` still commits, so a created target user persists);
otherwise a grant row is inserted. -/
def shareSecret (db : DB) (owner key target : String) : Except SMErr Unit × DB :=
  if owner ∈ db.users then
    match db.secrets.find? (fun s => s.owner_id = owner ∧ s.key = key) with
    | none => (.error .notFound, db)
    | some secret =>
        let users1 := if target ∈ db.users then db.users else db.users ++ [target]
        match db.shares.find? (fun sh => sh.secret_id = secret.id ∧ sh.user_id = target) with
        | some _ => (.ok (), { db with users := users1 })
        | none =>
            (.ok (), { db with users := users1,
                               shares := db.shares ++ [⟨db.nextShareId, secret.id, target⟩],
                               nextShareId := db.nextShareId + 1 })
  else (.error .notFound, db)

/-- `delete_secret` (service.py lines 82-92): NotFound when the owner user or
the owner's secret with this key is absent; else the secret is deleted and the
`cascade="all, delete-orphan"` relation removes every grant of that secret. -/
def deleteSecret (db : DB) (owner key : String) : Except SMErr Unit × DB :=
  if owner ∈ db.users then
    match db.secrets.find? (fun s => s.owner_id = owner ∧ s.key = key) with
    | none => (.error .notFound, db)
    | some secret =>
        (.ok (), { db with secrets := db.secrets.filter (fun s => ¬ s.id = secret.id),
                           shares := db.shares.filter (fun sh => ¬ sh.secret_id = secret.id) })
  else (.error .notFound, db)

/-- Well-formedness maintained by the operations and the schema: owners and
grantees have user rows, primary keys and the unique constraint
`uix_owner_key` on (owner_id, key) hold. -/
structure DBWF (db : DB) : Prop where
  ownersUsers : ∀ s ∈ db.secrets, s.owner_id ∈ db.users
  granteesUsers : ∀ sh ∈ db.shares, sh.user_id ∈ db.users
  pairsNodup : (db.secrets.map (fun s => (s.owner_id, s.key))).Nodup
  idsNodup : (db.secrets.map (fun s => s.id)).Nodup

/-- Number of grant rows for a given (secret id, grantee) pair. -/
def countGrants (db : DB) (sid : Nat) (target : String) : Nat :=
  (db.shares.filter (fun sh => sh.secret_id = sid ∧ sh.user_id = target)).length

/-- A user `u` owns a secret with key `k`. -/
def ownsKey (db : DB) (u k : String) : Prop :=
  ∃ s ∈ db.secrets, s.owner_id = u ∧ s.key = k

/-- A user `u` holds a Share grant on some secret with key `k`. -/
def hasGrantOnKey (db : DB) (u k : String) : Prop :=
  ∃ s ∈ db.secrets, s.key = k ∧ ∃ sh ∈ db.shares, sh.secret_id = s.id ∧ sh.user_id = u

/-- A one-owner, one-secret, one-grant database used to instantiate the
access-control theorems: alice owns ("db", "s3cr3t"), shared with bob. -/
def dbW : DB :=
  ⟨["alice", "bob"], [⟨0, "db", "s3cr3t", "alice"⟩], [⟨0, 0, "bob"⟩], 1, 1⟩

end SecretManager

namespace Auth

/-! ### Python-dict association lists

`OAUTH_STATE_STORE` and `SESSION_STORE` are Python dicts keyed by strings.
`lookupA` is `d.get(k)`, `updIns` is `d[k] = v` (replacing in place, keeping
insertion order), `eraseA` is `d.pop(k, None)`. -/

def lookupA {α : Type} : List (String × α) → String → Option α
  | [], _ => none
  | (k, v) :: t, key => if k = key then some v else lookupA t key

def updIns {α : Type} : List (String × α) → String → α → List (String × α)
  | [], key, v => [(key, v)]
  | (k, w) :: t, key, v => if k = key then (key, v) :: t else (k, w) :: updIns t key v

def eraseA {α : Type} : List (String × α) → String → List (String × α)
  | [], _ => []
  | (k, w) :: t, key => if k = key then t else (k, w) :: eraseA t key

def keysNodup {α : Type} (l : List (String × α)) : Prop :=
  (l.map Prod.fst).Nodup

/-- `STATE_TTL_SECONDS` (service.py line 15). -/
def STATE_TTL : Nat := 300

/-- `SESSION_TTL_SECONDS` (service.py line 16). -/
def SESSION_TTL : Nat := 600

/-- A value of `OAUTH_STATE_STORE`: `{"created_at": …, "session_id": …}`. -/
structure StateRec where
  created_at : Nat
  session_id : String
  deriving DecidableEq, Repr

/-- Login-session status strings. -/
inductive SStatus where
  | pending
  | ready
  | error
  deriving DecidableEq, Repr

/-- The token bundle stored on `complete_session` (service.py lines 270-275). -/
structure TokenBundle where
  access_token : String
  token_type : String
  scope : String
  user : String
  deriving DecidableEq, Repr

/-- A value of `SESSION_STORE` (service.py lines 82-89 plus the fields written
by `_set_session_error` and `complete_session`). -/
structure SessionRec where
  created_at : Nat
  status : SStatus
  scope : String
  state : String
  token : Option TokenBundle
  error_message : Option String
  completed_at : Option Nat
  deriving DecidableEq, Repr

/-- The in-memory auth state: the two stores plus the time of the last
operation (a ghost clock used to state monotonicity of time). -/
structure World where
  states : List (String × StateRec)
  sessions : List (String × SessionRec)
  clock : Nat
  deriving DecidableEq, Repr

def World.init : World := ⟨[], [], 0⟩

/-- Auth error taxonomy: 400 "Invalid or expired OAuth state" → invalidState,
400/404 "Login session not found or expired" → sessionExpired / notFound,
502 on transport failure → upstreamUnavailable, 400 provider refusal or
missing token → providerRejected, 401 → invalidCredential. -/
inductive AuthErr where
  | invalidState
  | sessionExpired
  | notFound
  | upstreamUnavailable
  | providerRejected
  | invalidCredential
  deriving DecidableEq, Repr

/-- `_cleanup_states` (service.py lines 46-60): drop entries older than 300s. -/
def cleanupStates (l : List (String × StateRec)) (now : Nat) : List (String × StateRec) :=
  l.filter (fun p => ¬ now - p.2.created_at > STATE_TTL)

/-- `_cleanup_sessions` (service.py lines 63-71): drop entries older than 600s. -/
def cleanupSessions (l : List (String × SessionRec)) (now : Nat) : List (String × SessionRec) :=
  l.filter (fun p => ¬ now - p.2.created_at > SESSION_TTL)

/-- `initiate_login` (service.py lines 74-99): sweep both stores, then store a
fresh pending session and its CSRF state token, both stamped `now`.  The
secrets-module randomness is modelled by the caller supplying `sid` and
`tok`; freshness is a hypothesis of the transition relation below. -/
def initiateLogin (w : World) (now : Nat) (sid tok scope : String) : World :=
  let states1 := cleanupStates w.states now
  let sessions1 := cleanupSessions w.sessions now
  { states := updIns states1 tok ⟨now, sid⟩,
    sessions := updIns sessions1 sid
      { created_at := now, status := .pending, scope := scope, state := tok,
        token := none, error_message := none, completed_at := none },
    clock := now }

/-- `_validate_state` (service.py lines 102-113): pop the state token (single
use regardless of outcome); fail invalidState if absent or older than 300s;
fail sessionExpired if its session vanished; on success sweep both stores and
return the session id. -/
def validateState (w : World) (now : Nat) (tok : String) : Except AuthErr String × World :=
  match lookupA w.states tok with
  | none => (.error .invalidState, { w with states := eraseA w.states tok, clock := now })
  | some m =>
      let states1 := eraseA w.states tok
      if now - m.created_at > STATE_TTL then
        (.error .invalidState, { w with states := states1, clock := now })
      else if (lookupA w.sessions m.session_id).isNone then
        (.error .sessionExpired, { w with states := states1, clock := now })
      else
        (.ok m.session_id,
         { states := cleanupStates states1 now,
           sessions := cleanupSessions w.sessions now, clock := now })

/-- `_set_session_error` (service.py lines 116-122): mark the session error
with a message and completion time; no-op when the session is absent. -/
def setSessionError (w : World) (sid msg : String) (now : Nat) : World :=
  match lookupA w.sessions sid with
  | none => w
  | some s =>
      let s1 := { s with status := SStatus.error, error_message := some msg,
                         completed_at := some now }
      { w with sessions := updIns w.sessions sid s1 }

/-- Outcome of the provider's token-exchange POST, as observed by
`exchange_code_for_token`: a transport error, or an HTTP response with a
status, an optional error description and optional token fields. -/
inductive TokenResp where
  | netError
  | resp (status : Nat) (errorDescription : Option String)
      (accessToken : Option String) (tokenType : Option String) (scopeField : Option String)
  deriving DecidableEq, Repr

/-- The payload fields `complete_session` reads from the exchange response. -/
structure TokenPayload where
  access_token : String
  token_type : String
  scope : String
  deriving DecidableEq, Repr

/-- `exchange_code_for_token` (service.py lines 125-165): validate the state,
re-fetch the session, then perform the provider exchange; transport failure,
non-200 status and a missing access token each record an error on the session
before raising. -/
def exchangeCode (w : World) (now : Nat) (tok : String) (tr : TokenResp) :
    Except AuthErr (String × TokenPayload) × World :=
  match validateState w now tok with
  | (.error e, w1) => (.error e, w1)
  | (.ok sid, w1) =>
      match lookupA w1.sessions sid with
      | none => (.error .sessionExpired, w1)
      | some _ =>
          match tr with
          | .netError =>
              (.error .upstreamUnavailable,
               setSessionError w1 sid "Failed to reach GitHub for token exchange" now)
          | .resp status desc atok ttype scopeField =>
              if status ≠ 200 then
                (.error .providerRejected,
                 setSessionError w1 sid
                   (desc.getD "GitHub declined the authorization request") now)
              else
                match atok with
                | none =>
                    (.error .providerRejected,
                     setSessionError w1 sid
                       (desc.getD "Missing access token in GitHub response") now)
                | some t =>
                    (.ok (sid, ⟨t, ttype.getD "bearer", scopeField.getD ""⟩), w1)

/-- `complete_session` (service.py lines 263-275): 404 when the session is
gone; else status ready, completion stamped, token bundle stored. -/
def completeSession (w : World) (sid : String) (payload : TokenPayload) (uid : String)
    (now : Nat) : Except AuthErr Unit × World :=
  match lookupA w.sessions sid with
  | none => (.error .notFound, w)
  | some s =>
      let s1 := { s with status := SStatus.ready, completed_at := some now,
                         token := some ⟨payload.access_token, payload.token_type, payload.scope, uid⟩ }
      (.ok (), { w with sessions := updIns w.sessions sid s1 })

/-- The `/auth/callback` route (router.py lines 29-47): exchange, then verify
the token against the user API (an oracle `ur` here), then complete; any
failure after the exchange succeeded marks the session as failed. -/
def callbackOp (w : World) (now : Nat) (tok : String) (tr : TokenResp)
    (ur : Except AuthErr String) : Except AuthErr Unit × World :=
  match exchangeCode w now tok tr with
  | (.error e, w1) => (.error e, w1)
  | (.ok (sid, payload), w1) =>
      match ur with
      | .error e => (.error e, setSessionError w1 sid "Login failed" now)
      | .ok uid =>
          match completeSession w1 sid payload uid now with
          | (.error e, w2) => (.error e, setSessionError w2 sid "Login failed" now)
          | (.ok (), w2) => (.ok (), w2)

/-- What `get_session_status` returns on success. -/
inductive PollOut where
  | ready (token : Option TokenBundle)
  | errored (message : String)
  | pending
  deriving DecidableEq, Repr

/-- `get_session_status` (service.py lines 278-293): sweep expired sessions,
404 when absent; a terminal session is returned and deleted (consuming read),
a pending one is returned and kept. -/
def getSessionStatus (w : World) (now : Nat) (sid : String) : Except AuthErr PollOut × World :=
  let sessions1 := cleanupSessions w.sessions now
  match lookupA sessions1 sid with
  | none => (.error .notFound, { w with sessions := sessions1, clock := now })
  | some s =>
      match s.status with
      | .ready => (.ok (.ready s.token),
                   { w with sessions := eraseA sessions1 sid, clock := now })
      | .error => (.ok (.errored (s.error_message.getD "Login failed")),
                   { w with sessions := eraseA sessions1 sid, clock := now })
      | .pending => (.ok .pending, { w with sessions := sessions1, clock := now })

/-! ### Identity verifier (`fetch_github_user`) -/

/-- Outcome of one `GET /user` call with a given Authorization scheme. -/
inductive UserApiResp where
  | netError
  | resp (status : Nat) (payload : String)
  deriving DecidableEq, Repr

/-- Token kinds: `"oauth"` (delegated) or `"pat"` (direct personal token). -/
inductive TokenKind where
  | oauth
  | pat
  deriving DecidableEq, Repr

/-- The scheme loop of `fetch_github_user` (service.py lines 184-203): call the
provider with each scheme in turn; return the payload on 200; on 401 remember
the response and try the next scheme; on any other status break out; a
transport error raises 502 at once.  After the loop, a last response of 401
yields invalidCredential (401), anything else upstreamUnavailable (502).
The result also carries the list of schemes actually attempted. -/
def fetchLoop (f : String → UserApiResp) :
    List String → Option Nat → Except AuthErr String × List String
  | [], last =>
      (if last = some 401 then .error .invalidCredential else .error .upstreamUnavailable, [])
  | s :: rest, _ =>
      match f s with
      | .netError => (.error .upstreamUnavailable, [s])
      | .resp status payload =>
          if status = 200 then (.ok payload, [s])
          else if status = 401 then
            let r := fetchLoop f rest (some status)
            (r.1, s :: r.2)
          else (.error .upstreamUnavailable, [s])

/-- `fetch_github_user` (service.py lines 168-203): `pat` credentials try the
`token` scheme then `Bearer`; `oauth` credentials try only `Bearer`. -/
def fetchGithubUser (f : String → UserApiResp) (kind : TokenKind) :
    Except AuthErr String × List String :=
  fetchLoop f (match kind with | .pat => ["token", "Bearer"] | .oauth => ["Bearer"]) none

/-! ### Sequential executions of the auth service

The store-touching entry points are `initiate_login`, the `/auth/callback`
route and `get_session_status`; everything else leaves the two stores alone.
A trace interleaves these with monotonically increasing timestamps; the
`secrets.token_urlsafe` calls of `initiate_login` are modelled by requiring
the supplied identifiers to be fresh for their stores. -/

inductive Ev where
  | initiate (now : Nat) (sid tok scope : String)
  | callback (now : Nat) (code tok : String) (tr : TokenResp) (ur : Except AuthErr String)
  | poll (now : Nat) (sid : String)

/-- The store transition of one event (outputs discarded). -/
def stepW (w : World) : Ev → World
  | .initiate now sid tok scope => initiateLogin w now sid tok scope
  | .callback now _ tok tr ur => (callbackOp w now tok tr ur).2
  | .poll now sid => (getSessionStatus w now sid).2

/-- Admissibility of an event in a world: time does not go backwards, and
freshly generated identifiers do not collide with live ones. -/
def WfEv (w : World) : Ev → Prop
  | .initiate now sid tok _ =>
      w.clock ≤ now ∧ lookupA w.sessions sid = none ∧ lookupA w.states tok = none
  | .callback now _ _ _ _ => w.clock ≤ now
  | .poll now _ => w.clock ≤ now

/-- Worlds reachable from the empty stores by admissible events. -/
inductive Reach : World → Prop
  | init : Reach World.init
  | step {w : World} {e : Ev} : Reach w → WfEv w e → Reach (stepW w e)

/-- A failed callback was recorded on session `sid`: it is stored with status
error, a message and a completion stamp, and polling it (within the session
TTL) reports the error. -/
def recordsError (w2 : World) (sid : String) (now : Nat) : Prop :=
  ∃ s2, lookupA w2.sessions sid = some s2 ∧ s2.status = .error ∧
    s2.error_message.isSome = true ∧ s2.completed_at = some now ∧
    (keysNodup w2.sessions → ∀ now2, now2 - s2.created_at ≤ SESSION_TTL →
      ∃ msg, (getSessionStatus w2 now2 sid).1 = .ok (.errored msg))

/-- The world after one login was initiated at time 0 with session id "sid1"
and state token "tok1"; used to instantiate the session-lifecycle theorems. -/
def wW : World :=
  initiateLogin World.init 0 "sid1" "tok1" "scope"

/-- Invariant of reachable worlds: store keys are unique; every state token
that is not yet expired (relative to the time of the last operation) maps to
a live session created at the same instant and still pending; and distinct
unexpired state tokens map to distinct sessions.  The last two clauses hold
because a session is driven to a terminal status only after its own state
token has been consumed, and the state TTL (300s) is shorter than the session
TTL (600s). -/
structure Inv (w : World) : Prop where
  ndStates : keysNodup w.states
  ndSessions : keysNodup w.sessions
  present : ∀ tok m, lookupA w.states tok = some m →
    w.clock - m.created_at ≤ STATE_TTL →
    ∃ s, lookupA w.sessions m.session_id = some s ∧ s.created_at = m.created_at ∧
      s.status = .pending
  inj : ∀ t1 t2 m1 m2, lookupA w.states t1 = some m1 → lookupA w.states t2 = some m2 →
    t1 ≠ t2 → w.clock - m1.created_at ≤ STATE_TTL → w.clock - m2.created_at ≤ STATE_TTL →
    m1.session_id ≠ m2.session_id

/-! ### Association-list lemmas -/

theorem lookupA_updIns_self {α : Type} (l : List (String × α)) (k : String) (v : α) :
    lookupA (updIns l k v) k = some v := by
  induction l with
  | nil => simp [updIns, lookupA]
  | cons p t ih =>
      obtain ⟨k1, w1⟩ := p
      by_cases h : k1 = k <;> simp [updIns, lookupA, h, ih]

theorem lookupA_updIns_ne {α : Type} (l : List (String × α)) (k k' : String) (v : α)
    (hne : k ≠ k') : lookupA (updIns l k v) k' = lookupA l k' := by
  induction l with
  | nil => simp [updIns, lookupA, hne]
  | cons p t ih =>
      obtain ⟨k1, w1⟩ := p
      by_cases h : k1 = k
      · subst h; simp [updIns, lookupA, hne]
      · by_cases h2 : k1 = k' <;> simp [updIns, lookupA, h, h2, ih, Ne.symm hne]

theorem lookupA_eraseA_ne {α : Type} (l : List (String × α)) (k k' : String)
    (hne : k ≠ k') : lookupA (eraseA l k) k' = lookupA l k' := by
  induction l with
  | nil => simp [eraseA]
  | cons p t ih =>
      obtain ⟨k1, w1⟩ := p
      by_cases h : k1 = k
      · subst h; simp [eraseA, lookupA, hne]
      · by_cases h2 : k1 = k' <;> simp [eraseA, lookupA, h, h2, ih, Ne.symm hne]

theorem mem_of_lookupA {α : Type} {l : List (String × α)} {k : String} {v : α}
    (h : lookupA l k = some v) : (k, v) ∈ l := by
  induction l with
  | nil => simp [lookupA] at h
  | cons p t ih =>
      obtain ⟨k1, w1⟩ := p
      by_cases hk : k1 = k
      · subst hk
        simp [lookupA] at h
        simp [h]
      · simp [lookupA, hk] at h
        exact List.mem_cons_of_mem _ (ih h)

theorem lookupA_eq_none_iff {α : Type} (l : List (String × α)) (k : String) :
    lookupA l k = none ↔ k ∉ l.map Prod.fst := by
  induction l with
  | nil => simp [lookupA]
  | cons p t ih =>
      obtain ⟨k1, w1⟩ := p
      by_cases hk : k1 = k <;> simp [lookupA, hk, ih] <;> tauto

theorem lookupA_eraseA_self {α : Type} {l : List (String × α)} (k : String)
    (hnd : keysNodup l) : lookupA (eraseA l k) k = none := by
  induction l with
  | nil => simp [eraseA, lookupA]
  | cons p t ih =>
      obtain ⟨k1, w1⟩ := p
      simp [keysNodup] at hnd
      by_cases h : k1 = k
      · subst h
        simp [eraseA, lookupA_eq_none_iff]
        exact hnd.1
      · simp [eraseA, lookupA, h]
        exact ih hnd.2

theorem eraseA_sublist {α : Type} (l : List (String × α)) (k : String) :
    (eraseA l k).Sublist l := by
  induction l with
  | nil => simp [eraseA]
  | cons p t ih =>
      obtain ⟨k1, w1⟩ := p
      by_cases h : k1 = k
      · simpa [eraseA, h] using List.sublist_cons_self _ _
      · simpa [eraseA, h] using ih

theorem keysNodup_sublist {α : Type} {l l' : List (String × α)}
    (hs : l'.Sublist l) (hnd : keysNodup l) : keysNodup l' :=
  ((hs.map Prod.fst).nodup hnd : _)

theorem keysNodup_eraseA {α : Type} {l : List (String × α)} (k : String)
    (hnd : keysNodup l) : keysNodup (eraseA l k) :=
  keysNodup_sublist (eraseA_sublist l k) hnd

theorem keysNodup_filter {α : Type} {l : List (String × α)} (p : String × α → Bool)
    (hnd : keysNodup l) : keysNodup (l.filter p) :=
  keysNodup_sublist (List.filter_sublist l) hnd

theorem mapFst_updIns_subset {α : Type} (l : List (String × α)) (k : String) (v : α) :
    (updIns l k v).map Prod.fst ⊆ k :: l.map Prod.fst := by
  induction l with
  | nil => simp [updIns]
  | cons q t ih =>
      obtain ⟨k1, w1⟩ := q
      by_cases h : k1 = k
      · subst h
        simp only [updIns, if_pos rfl, List.map_cons]
        exact List.cons_subset_cons _ (List.subset_cons_self _ _)
      · intro x hx
        simp only [updIns, if_neg h, List.map_cons, List.mem_cons] at hx
        rcases hx with hx | hx
        · simp [hx]
        · have := ih hx
          simp only [List.mem_cons] at this ⊢
          tauto

theorem keysNodup_updIns {α : Type} {l : List (String × α)} (k : String) (v : α)
    (hnd : keysNodup l) : keysNodup (updIns l k v) := by
  induction l with
  | nil => simp [updIns, keysNodup]
  | cons q t ih =>
      obtain ⟨k1, w1⟩ := q
      simp only [keysNodup, List.map_cons, List.nodup_cons] at hnd
      by_cases h : k1 = k
      · subst h
        have e : updIns ((k1, w1) :: t) k1 v = (k1, v) :: t := by simp [updIns]
        rw [e]
        simp only [keysNodup, List.map_cons, List.nodup_cons]
        exact hnd
      · have ht := ih hnd.2
        simp only [updIns, if_neg h, keysNodup, List.map_cons, List.nodup_cons]
        refine ⟨fun hmem => ?_, ht⟩
        rcases List.mem_cons.mp (mapFst_updIns_subset t k v hmem) with h1 | h1
        · exact h h1
        · exact hnd.1 h1

theorem lookupA_filter_none {α : Type} {l : List (String × α)} {k : String}
    (p : String × α → Bool) (h : lookupA l k = none) :
    lookupA (l.filter p) k = none := by
  rw [lookupA_eq_none_iff] at h ⊢
  intro hmem
  apply h
  rcases List.mem_map.mp hmem with ⟨q, hq, rfl⟩
  exact List.mem_map_of_mem _ (List.mem_of_mem_filter hq)

theorem lookupA_filter_some {α : Type} {l : List (String × α)} {k : String} {v : α}
    (p : String × α → Bool) (hnd : keysNodup l)
    (h : lookupA l k = some v) (hp : p (k, v) = true) :
    lookupA (l.filter p) k = some v := by
  induction l with
  | nil => simp [lookupA] at h
  | cons q t ih =>
      obtain ⟨k1, w1⟩ := q
      simp only [keysNodup, List.map_cons, List.nodup_cons] at hnd
      by_cases hk : k1 = k
      · subst hk
        simp [lookupA] at h
        subst h
        rw [List.filter_cons_of_pos hp]
        simp [lookupA]
      · simp only [lookupA, if_neg hk] at h
        have ht := ih hnd.2 h
        by_cases hq : p (k1, w1) = true
        · rw [List.filter_cons_of_pos hq]
          simpa [lookupA, hk] using ht
        · rw [List.filter_cons_of_neg (by simpa using hq)]
          exact ht

theorem lookupA_of_filter_some {α : Type} {l : List (String × α)} {k : String} {v : α}
    {p : String × α → Bool} (hnd : keysNodup l)
    (h : lookupA (l.filter p) k = some v) :
    lookupA l k = some v ∧ p (k, v) = true := by
  induction l with
  | nil => simp [List.filter_nil, lookupA] at h
  | cons q t ih =>
      obtain ⟨k1, w1⟩ := q
      simp only [keysNodup, List.map_cons, List.nodup_cons] at hnd
      by_cases hq : p (k1, w1) = true
      · rw [List.filter_cons_of_pos hq] at h
        by_cases hk : k1 = k
        · subst hk
          simp [lookupA] at h
          subst h
          simp [lookupA, hq]
        · simp only [lookupA, if_neg hk] at h ⊢
          exact ih hnd.2 h
      · rw [List.filter_cons_of_neg (by simpa using hq)] at h
        have ht := ih hnd.2 h
        by_cases hk : k1 = k
        · subst hk
          have hn := (lookupA_eq_none_iff t k1).mpr hnd.1
          exact absurd ht.1 (by simp [hn])
        · simpa [lookupA, hk] using ht

end Auth

namespace SecretManager

/-- C2: after `Put(O,K,v1)` succeeds, a second `Put(O,K,v2)` fails with
Conflict and leaves the repository unchanged; the stored value for `(O,K)`
is still `v1`. -/
theorem putSecret_conflict_on_reuse (db db1 : DB) (O K v1 v2 : String)
    (h : putSecret db O K v1 = (.ok (), db1)) :
    putSecret db1 O K v2 = (.error .conflict, db1) ∧
    ∀ s ∈ db1.secrets, s.owner_id = O → s.key = K → s.value = v1 := by
  unfold putSecret at h
  cases hf : db.secrets.find? (fun s => s.owner_id = O ∧ s.key = K) with
  | some s => rw [hf] at h; simp at h
  | none =>
      rw [hf] at h
      simp only [Prod.mk.injEq, true_and] at h
      subst h
      constructor
      · have hnew : (db.secrets ++ [(⟨db.nextSecretId, K, v1, O⟩ : SecretRec)]).find?
            (fun s => decide (s.owner_id = O ∧ s.key = K)) =
            some ⟨db.nextSecretId, K, v1, O⟩ := by
          rw [List.find?_append, hf]
          simp [List.find?]
        simp only [putSecret, hnew]
      · intro s hs hso hsk
        simp only [List.mem_append, List.mem_singleton] at hs
        rcases hs with hs | hs
        · have := List.find?_eq_none.mp hf s hs
          simp [hso, hsk] at this
        · subst hs; rfl

/-- Witness for C2 at a concrete database. -/
theorem putSecret_conflict_on_reuse_witness :
    putSecret ⟨["a"], [⟨0, "k", "v1", "a"⟩], [], 1, 0⟩ "a" "k" "v2"
      = (.error .conflict, ⟨["a"], [⟨0, "k", "v1", "a"⟩], [], 1, 0⟩) :=
  (putSecret_conflict_on_reuse DB.init ⟨["a"], [⟨0, "k", "v1", "a"⟩], [], 1, 0⟩
    "a" "k" "v1" "v2" rfl).1

end SecretManager
namespace SecretManager

/-- With the (owner, key) unique constraint, the owned-secret query finds
exactly the owned secret. -/
theorem find?_owned_eq (db : DB) (hnd : (db.secrets.map (fun s => (s.owner_id, s.key))).Nodup)
    (C K : String) (s : SecretRec) (hs : s ∈ db.secrets) (hso : s.owner_id = C)
    (hsk : s.key = K) :
    db.secrets.find? (fun x => x.key = K ∧ x.owner_id = C) = some s := by
  have hsome : (db.secrets.find? (fun x => decide (x.key = K ∧ x.owner_id = C))).isSome :=
    List.find?_isSome.mpr ⟨s, hs, by simp [hso, hsk]⟩
  obtain ⟨x, hx⟩ := Option.isSome_iff_exists.mp hsome
  have hpx := List.find?_some hx
  have hmx := List.mem_of_find?_eq_some hx
  simp only [decide_eq_true_eq] at hpx
  have hxs : x = s := by
    apply List.inj_on_of_nodup_map hnd hmx hs
    simp [hpx.1, hpx.2, hso, hsk]
  rw [hx, hxs]

/-- With unique secret ids, the id-join query finds exactly the secret of a
grant. -/
theorem find?_byId_eq (db : DB) (hnd : (db.secrets.map (fun s => s.id)).Nodup)
    (s : SecretRec) (hs : s ∈ db.secrets) (n : Nat) (hid : s.id = n) :
    db.secrets.find? (fun x => x.id = n) = some s := by
  have hsome : (db.secrets.find? (fun x => decide (x.id = n))).isSome :=
    List.find?_isSome.mpr ⟨s, hs, by simp [hid]⟩
  obtain ⟨x, hx⟩ := Option.isSome_iff_exists.mp hsome
  have hpx := List.find?_some hx
  have hmx := List.mem_of_find?_eq_some hx
  simp only [decide_eq_true_eq] at hpx
  have hxs : x = s := by
    apply List.inj_on_of_nodup_map hnd hmx hs
    simp [hpx, hid]
  rw [hx, hxs]

/-- A secret granted to `C` appears in the share join. -/
theorem mem_sharedSecrets_of_grant (db : DB)
    (hnd : (db.secrets.map (fun s => s.id)).Nodup) (C : String) (s : SecretRec)
    (hs : s ∈ db.secrets) (sh : ShareRec) (hsh : sh ∈ db.shares)
    (h1 : sh.secret_id = s.id) (h2 : sh.user_id = C) : s ∈ sharedSecrets db C := by
  unfold sharedSecrets
  refine List.mem_filterMap.mpr ⟨sh, hsh, ?_⟩
  rw [if_pos h2]
  exact find?_byId_eq db hnd s hs sh.secret_id h1.symm

/-- Every element of the share join is a stored secret with a grant to `C`. -/
theorem of_mem_sharedSecrets (db : DB) (C : String) (x : SecretRec)
    (hx : x ∈ sharedSecrets db C) :
    x ∈ db.secrets ∧ ∃ sh ∈ db.shares, sh.secret_id = x.id ∧ sh.user_id = C := by
  unfold sharedSecrets at hx
  obtain ⟨sh, hsh, heq⟩ := List.mem_filterMap.mp hx
  by_cases hc : sh.user_id = C
  · rw [if_pos hc] at heq
    have hmx := List.mem_of_find?_eq_some heq
    have hpx := List.find?_some heq
    simp only [decide_eq_true_eq] at hpx
    exact ⟨hmx, sh, hsh, hpx.symm, hc⟩
  · rw [if_neg hc] at heq
    exact absurd heq (by simp)

/-- A caller who neither owns nor was granted a secret with the key gets
not-found (no well-formedness needed). -/
theorem getSecret_none_aux (db : DB) (C K : String) (hno : ¬ ownsKey db C K)
    (hgr : ¬ hasGrantOnKey db C K) : getSecretForUser db C K = none := by
  unfold getSecretForUser
  by_cases hC : C ∈ db.users
  · rw [if_pos hC]
    have hf1 : db.secrets.find? (fun x => x.key = K ∧ x.owner_id = C) = none := by
      apply List.find?_eq_none.mpr
      intro x hxmem
      simp only [decide_eq_true_eq, not_and]
      intro hxk hxo
      exact hno ⟨x, hxmem, hxo, hxk⟩
    rw [hf1]
    apply List.find?_eq_none.mpr
    intro x hxmem
    simp only [decide_eq_true_eq]
    intro hxk
    obtain ⟨hxs, sh, hsh, h1, h2⟩ := of_mem_sharedSecrets db C x hxmem
    exact hgr ⟨x, hxs, hxk, sh, hsh, h1, h2⟩
  · rw [if_neg hC]

/-- C1: Get returns the caller's own secret with the key when it exists;
otherwise, when the caller holds a grant on some secret with that key, one
such secret (carrying its actual owner) is returned; otherwise Get returns
not-found. -/
theorem getSecret_access_control (db : DB) (hwf : DBWF db) (C K : String) :
    (∀ s ∈ db.secrets, s.owner_id = C → s.key = K → getSecretForUser db C K = some s) ∧
    (¬ ownsKey db C K → hasGrantOnKey db C K →
      ∃ s', getSecretForUser db C K = some s' ∧ s' ∈ db.secrets ∧ s'.key = K ∧
        ∃ sh ∈ db.shares, sh.secret_id = s'.id ∧ sh.user_id = C) ∧
    (¬ ownsKey db C K → ¬ hasGrantOnKey db C K → getSecretForUser db C K = none) := by
  refine ⟨?_, ?_, ?_⟩
  · intro s hs hso hsk
    have hC : C ∈ db.users := hso ▸ hwf.ownersUsers s hs
    unfold getSecretForUser
    rw [if_pos hC, find?_owned_eq db hwf.pairsNodup C K s hs hso hsk]
  · intro hno hgr
    obtain ⟨s, hs, hsk, sh, hsh, h1, h2⟩ := hgr
    have hC : C ∈ db.users := h2 ▸ hwf.granteesUsers sh hsh
    have hf1 : db.secrets.find? (fun x => x.key = K ∧ x.owner_id = C) = none := by
      apply List.find?_eq_none.mpr
      intro x hxmem
      simp only [decide_eq_true_eq, not_and]
      intro hxk hxo
      exact hno ⟨x, hxmem, hxo, hxk⟩
    have hmem : s ∈ sharedSecrets db C :=
      mem_sharedSecrets_of_grant db hwf.idsNodup C s hs sh hsh h1 h2
    have hsome : ((sharedSecrets db C).find? (fun x => decide (x.key = K))).isSome :=
      List.find?_isSome.mpr ⟨s, hmem, by simp [hsk]⟩
    obtain ⟨x, hx⟩ := Option.isSome_iff_exists.mp hsome
    have hpx := List.find?_some hx
    simp only [decide_eq_true_eq] at hpx
    obtain ⟨hxmem, sh', hsh', h1', h2'⟩ :=
      of_mem_sharedSecrets db C x (List.mem_of_find?_eq_some hx)
    refine ⟨x, ?_, hxmem, hpx, sh', hsh', h1', h2'⟩
    unfold getSecretForUser
    rw [if_pos hC, hf1, hx]
  · exact getSecret_none_aux db C K

/-- Witness for C1: alice owns the secret, bob reads it through the share,
carol gets not-found. -/
theorem getSecret_access_control_witness :
    getSecretForUser dbW "alice" "db" = some ⟨0, "db", "s3cr3t", "alice"⟩ ∧
    (∃ s', getSecretForUser dbW "bob" "db" = some s' ∧ s' ∈ dbW.secrets ∧ s'.key = "db" ∧
      ∃ sh ∈ dbW.shares, sh.secret_id = s'.id ∧ sh.user_id = "bob") ∧
    getSecretForUser dbW "carol" "db" = none := by
  have hwf : DBWF dbW := ⟨by decide, by decide, by decide, by decide⟩
  refine ⟨?_, ?_, ?_⟩
  · exact (getSecret_access_control dbW hwf "alice" "db").1
      ⟨0, "db", "s3cr3t", "alice"⟩ (by decide) rfl rfl
  · exact (getSecret_access_control dbW hwf "bob" "db").2.1
      (by unfold ownsKey; decide) (by unfold hasGrantOnKey; decide)
  · exact (getSecret_access_control dbW hwf "carol" "db").2.2
      (by unfold ownsKey; decide) (by unfold hasGrantOnKey; decide)

/-- Variant of `find?_owned_eq` for the (owner, key) predicate order used by
`share_secret` and `delete_secret`. -/
theorem find?_ownedPK_eq (db : DB)
    (hnd : (db.secrets.map (fun s => (s.owner_id, s.key))).Nodup)
    (O K : String) (s : SecretRec) (hs : s ∈ db.secrets) (hso : s.owner_id = O)
    (hsk : s.key = K) :
    db.secrets.find? (fun x => x.owner_id = O ∧ x.key = K) = some s := by
  have hsome : (db.secrets.find? (fun x => decide (x.owner_id = O ∧ x.key = K))).isSome :=
    List.find?_isSome.mpr ⟨s, hs, by simp [hso, hsk]⟩
  obtain ⟨x, hx⟩ := Option.isSome_iff_exists.mp hsome
  have hpx := List.find?_some hx
  have hmx := List.mem_of_find?_eq_some hx
  simp only [decide_eq_true_eq] at hpx
  have hxs : x = s := by
    apply List.inj_on_of_nodup_map hnd hmx hs
    simp [hpx.1, hpx.2, hso, hsk]
  rw [hx, hxs]

/-- C3: Delete removes the owner's secret with the key together with every
grant on it, after which any previously granted user (without another route
to a secret with that key) gets not-found; Delete is owner-scoped and fails
NotFound when the caller owns no secret with the key. -/
theorem deleteSecret_cascades (db : DB) (hwf : DBWF db) (O K : String) :
    (∀ s ∈ db.secrets, s.owner_id = O → s.key = K →
      (deleteSecret db O K).1 = .ok () ∧
      (∀ s2 ∈ (deleteSecret db O K).2.secrets, ¬ (s2.owner_id = O ∧ s2.key = K)) ∧
      (∀ sh ∈ (deleteSecret db O K).2.shares, sh.secret_id ≠ s.id) ∧
      (∀ U, (∃ sh ∈ db.shares, sh.secret_id = s.id ∧ sh.user_id = U) →
        ¬ ownsKey (deleteSecret db O K).2 U K →
        ¬ hasGrantOnKey (deleteSecret db O K).2 U K →
        getSecretForUser (deleteSecret db O K).2 U K = none)) ∧
    (¬ ownsKey db O K → deleteSecret db O K = (.error .notFound, db)) := by
  constructor
  · intro s hs hso hsk
    have hO : O ∈ db.users := hso ▸ hwf.ownersUsers s hs
    have hf := find?_ownedPK_eq db hwf.pairsNodup O K s hs hso hsk
    have hdel : deleteSecret db O K =
        (.ok (), { db with secrets := db.secrets.filter (fun x => ¬ x.id = s.id),
                           shares := db.shares.filter (fun sh => ¬ sh.secret_id = s.id) }) := by
      unfold deleteSecret
      rw [if_pos hO, hf]
    rw [hdel]
    refine ⟨rfl, ?_, ?_, ?_⟩
    · intro s2 hs2 hc
      have h1 := List.mem_of_mem_filter hs2
      have h2 := List.of_mem_filter hs2
      simp only [decide_not, Bool.not_eq_true', decide_eq_false_iff_not] at h2
      have heq : s2 = s :=
        List.inj_on_of_nodup_map hwf.pairsNodup h1 hs (by simp [hc.1, hc.2, hso, hsk])
      exact h2 (by rw [heq])
    · intro sh hsh
      have h2 := List.of_mem_filter hsh
      simpa only [decide_not, Bool.not_eq_true', decide_eq_false_iff_not] using h2
    · intro U hgr hno hgr2
      exact getSecret_none_aux _ U K hno hgr2
  · intro hno
    unfold deleteSecret
    by_cases hO : O ∈ db.users
    · rw [if_pos hO]
      have hf : db.secrets.find? (fun x => x.owner_id = O ∧ x.key = K) = none := by
        apply List.find?_eq_none.mpr
        intro x hxmem
        simp only [decide_eq_true_eq, not_and]
        intro hxo hxk
        exact hno ⟨x, hxmem, hxo, hxk⟩
      rw [hf]
    · rw [if_neg hO]

/-- Witness for C3: deleting alice's shared secret wipes it and its grant,
bob then gets not-found; bob (a mere grantee) cannot delete it. -/
theorem deleteSecret_cascades_witness :
    (deleteSecret dbW "alice" "db").1 = .ok () ∧
    getSecretForUser (deleteSecret dbW "alice" "db").2 "bob" "db" = none ∧
    deleteSecret dbW "bob" "db" = (.error .notFound, dbW) := by
  have hwf : DBWF dbW := ⟨by decide, by decide, by decide, by decide⟩
  have hA := (deleteSecret_cascades dbW hwf "alice" "db").1
    ⟨0, "db", "s3cr3t", "alice"⟩ (by decide) rfl rfl
  refine ⟨hA.1, ?_, ?_⟩
  · exact hA.2.2.2 "bob" (by decide)
      (by unfold ownsKey; decide) (by unfold hasGrantOnKey; decide)
  · exact (deleteSecret_cascades dbW hwf "bob" "db").2 (by unfold ownsKey; decide)

end SecretManager

namespace SecretManager

/-- C4: for an owner with a secret under the key and no existing grant for
the target, sharing inserts one grant row and a second identical Share call
is a successful no-op: exactly one grant row for the (secret, target) pair. -/
theorem shareSecret_idempotent (db : DB) (hwf : DBWF db) (O K T : String) (s : SecretRec)
    (hs : s ∈ db.secrets) (hso : s.owner_id = O) (hsk : s.key = K)
    (hcnt : countGrants db s.id T = 0) :
    (shareSecret db O K T).1 = .ok () ∧
    shareSecret (shareSecret db O K T).2 O K T = (.ok (), (shareSecret db O K T).2) ∧
    countGrants (shareSecret db O K T).2 s.id T = 1 := by
  have hO : O ∈ db.users := hso ▸ hwf.ownersUsers s hs
  have hf := find?_ownedPK_eq db hwf.pairsNodup O K s hs hso hsk
  have hempty : ∀ sh ∈ db.shares, ¬ (sh.secret_id = s.id ∧ sh.user_id = T) := by
    have h0 : db.shares.filter (fun sh => sh.secret_id = s.id ∧ sh.user_id = T) = [] :=
      List.length_eq_zero.mp hcnt
    intro sh hsh hc
    have hmem : sh ∈ db.shares.filter (fun sh => sh.secret_id = s.id ∧ sh.user_id = T) :=
      List.mem_filter.mpr ⟨hsh, by simp [hc.1, hc.2]⟩
    rw [h0] at hmem
    simp at hmem
  have hdup : db.shares.find? (fun sh => sh.secret_id = s.id ∧ sh.user_id = T) = none := by
    apply List.find?_eq_none.mpr
    intro sh hsh
    simpa using hempty sh hsh
  have hshare : shareSecret db O K T =
      (.ok (), { db with users := if T ∈ db.users then db.users else db.users ++ [T],
                         shares := db.shares ++ [⟨db.nextShareId, s.id, T⟩],
                         nextShareId := db.nextShareId + 1 }) := by
    unfold shareSecret
    rw [if_pos hO]
    simp only [hf]
    rw [hdup]
  rw [hshare]
  have hT1 : T ∈ (if T ∈ db.users then db.users else db.users ++ [T]) := by
    by_cases hT : T ∈ db.users
    · rw [if_pos hT]; exact hT
    · rw [if_neg hT]; simp
  have hO1 : O ∈ (if T ∈ db.users then db.users else db.users ++ [T]) := by
    by_cases hT : T ∈ db.users
    · rw [if_pos hT]; exact hO
    · rw [if_neg hT]; exact List.mem_append_left _ hO
  refine ⟨rfl, ?_, ?_⟩
  · unfold shareSecret
    rw [if_pos hO1]
    simp only [hf]
    rw [List.find?_append, hdup]
    have hnew : List.find? (fun sh => decide (sh.secret_id = s.id ∧ sh.user_id = T))
        [(⟨db.nextShareId, s.id, T⟩ : ShareRec)] = some ⟨db.nextShareId, s.id, T⟩ := by
      simp [List.find?]
    rw [Option.none_or, hnew]
    simp [hT1]
  · unfold countGrants
    rw [List.filter_append, List.length_append]
    have h0 : db.shares.filter (fun sh => sh.secret_id = s.id ∧ sh.user_id = T) = [] :=
      List.length_eq_zero.mp hcnt
    rw [h0]
    simp

/-- Witness for C4: alice shares her secret with carol twice. -/
theorem shareSecret_idempotent_witness :
    (shareSecret dbW "alice" "db" "carol").1 = .ok () ∧
    shareSecret (shareSecret dbW "alice" "db" "carol").2 "alice" "db" "carol"
      = (.ok (), (shareSecret dbW "alice" "db" "carol").2) ∧
    countGrants (shareSecret dbW "alice" "db" "carol").2 0 "carol" = 1 := by
  have hwf : DBWF dbW := ⟨by decide, by decide, by decide, by decide⟩
  exact shareSecret_idempotent dbW hwf "alice" "db" "carol" ⟨0, "db", "s3cr3t", "alice"⟩
    (by decide) rfl rfl (by unfold countGrants; decide)

end SecretManager

namespace SecretManager

/-- A deduplicated list in which every element satisfying `p` equals `a`,
with `a` present and satisfying `p`, has exactly one `p`-element. -/
theorem length_filter_eq_one_of {α : Type} (l : List α) (p : α → Bool) (a : α)
    (ha : a ∈ l) (hpa : p a = true) (huniq : ∀ x ∈ l, p x = true → x = a)
    (hnd : l.Nodup) : (l.filter p).length = 1 := by
  have hsub : ∀ x ∈ l.filter p, x = a := fun x hx =>
    huniq x (List.mem_of_mem_filter hx) (List.of_mem_filter hx)
  have hmem : a ∈ l.filter p := List.mem_filter.mpr ⟨ha, hpa⟩
  have hnd2 : (l.filter p).Nodup := hnd.filter p
  cases hlf : l.filter p with
  | nil => rw [hlf] at hmem; simp at hmem
  | cons b t =>
      rw [hlf] at hsub hnd2
      have hb : b = a := hsub b (by simp)
      cases t with
      | nil => rfl
      | cons c u =>
          have hc : c = a := hsub c (by simp)
          simp [hb, hc] at hnd2

/-- C10: an owner may share a secret with themself; the grant row is inserted
and List then reports the secret twice, once as owned and once as shared. -/
theorem shareSecret_self_listed_twice (db : DB) (hwf : DBWF db) (O K : String)
    (s : SecretRec) (hs : s ∈ db.secrets) (hso : s.owner_id = O) (hsk : s.key = K)
    (hcnt : countGrants db s.id O = 0) :
    (shareSecret db O K O).1 = .ok () ∧
    countGrants (shareSecret db O K O).2 s.id O = 1 ∧
    ((listVisible (shareSecret db O K O).2 O).filter
        (fun e => e.1 = K ∧ e.2.2 = O)).length = 2 := by
  have hO : O ∈ db.users := hso ▸ hwf.ownersUsers s hs
  have hf := find?_ownedPK_eq db hwf.pairsNodup O K s hs hso hsk
  have hempty : ∀ sh ∈ db.shares, ¬ (sh.secret_id = s.id ∧ sh.user_id = O) := by
    have h0 : db.shares.filter (fun sh => sh.secret_id = s.id ∧ sh.user_id = O) = [] :=
      List.length_eq_zero.mp hcnt
    intro sh hsh hc
    have hmem : sh ∈ db.shares.filter (fun sh => sh.secret_id = s.id ∧ sh.user_id = O) :=
      List.mem_filter.mpr ⟨hsh, by simp [hc.1, hc.2]⟩
    rw [h0] at hmem
    simp at hmem
  have hdup : db.shares.find? (fun sh => sh.secret_id = s.id ∧ sh.user_id = O) = none := by
    apply List.find?_eq_none.mpr
    intro sh hsh
    simpa using hempty sh hsh
  have hshare : shareSecret db O K O =
      (.ok (), { db with shares := db.shares ++ [⟨db.nextShareId, s.id, O⟩],
                         nextShareId := db.nextShareId + 1 }) := by
    unfold shareSecret
    rw [if_pos hO]
    simp only [hf]
    rw [hdup]
    simp [hO]
  rw [hshare]
  refine ⟨rfl, ?_, ?_⟩
  · unfold countGrants
    rw [List.filter_append, List.length_append, List.length_eq_zero.mp hcnt]
    simp
  · have hnodup : db.secrets.Nodup := List.Nodup.of_map _ hwf.pairsNodup
    have h2 : List.filterMap
        (fun sh => if sh.user_id = O then db.secrets.find? (fun x => x.id = sh.secret_id)
          else none) [(⟨db.nextShareId, s.id, O⟩ : ShareRec)] = [s] := by
      rw [List.filterMap_cons]
      dsimp only
      rw [if_pos rfl, find?_byId_eq db hwf.idsNodup s hs s.id rfl]
      rfl
    have hsplit : sharedSecrets
        { db with shares := db.shares ++ [⟨db.nextShareId, s.id, O⟩],
                  nextShareId := db.nextShareId + 1 } O
        = sharedSecrets db O ++ [s] := by
      unfold sharedSecrets
      dsimp only
      rw [List.filterMap_append, h2]
    unfold listVisible
    rw [if_pos (show O ∈ db.users from hO), hsplit]
    rw [List.map_append, List.filter_append, List.length_append,
        List.map_append, List.filter_append, List.length_append]
    have howned : ((db.secrets.filter (fun x => x.owner_id = O)).map
        (fun s => (s.key, s.value, s.owner_id)) |>.filter
          (fun e => e.1 = K ∧ e.2.2 = O)).length = 1 := by
      rw [List.filter_map, List.length_map]
      apply length_filter_eq_one_of _ _ s
      · exact List.mem_filter.mpr ⟨hs, by simp [hso]⟩
      · simp [Function.comp, hsk, hso]
      · intro x hx hpx
        simp only [Function.comp, decide_eq_true_eq] at hpx
        exact List.inj_on_of_nodup_map hwf.pairsNodup
          (List.mem_of_mem_filter hx) hs (by simp [hpx.1, hpx.2, hso, hsk])
      · exact hnodup.filter _
    have hsharedOld : (((sharedSecrets db O).map
        (fun s => (s.key, s.value, s.owner_id))).filter
          (fun e => e.1 = K ∧ e.2.2 = O)).length = 0 := by
      rw [List.length_eq_zero]
      apply List.filter_eq_nil.mpr
      intro e he
      obtain ⟨x, hx, rfl⟩ := List.mem_map.mp he
      obtain ⟨hxs, sh, hsh, h1, h2⟩ := of_mem_sharedSecrets db O x hx
      simp only [decide_eq_true_eq, not_and]
      intro hxk hxo
      have hxeq : x = s := List.inj_on_of_nodup_map hwf.pairsNodup hxs hs
        (by simp [hxk, hxo, hso, hsk])
      exact hempty sh hsh ⟨h1.symm ▸ congrArg SecretRec.id hxeq, h2⟩
    have hsharedNew : (([s].map (fun s => (s.key, s.value, s.owner_id))).filter
        (fun e => e.1 = K ∧ e.2.2 = O)).length = 1 := by
      simp [hsk, hso]
    rw [howned, hsharedOld, hsharedNew]

/-- Witness for C10: alice shares her secret with herself and lists it twice. -/
theorem shareSecret_self_listed_twice_witness :
    (shareSecret dbW "alice" "db" "alice").1 = .ok () ∧
    countGrants (shareSecret dbW "alice" "db" "alice").2 0 "alice" = 1 ∧
    ((listVisible (shareSecret dbW "alice" "db" "alice").2 "alice").filter
        (fun e => e.1 = "db" ∧ e.2.2 = "alice")).length = 2 := by
  have hwf : DBWF dbW := ⟨by decide, by decide, by decide, by decide⟩
  exact shareSecret_self_listed_twice dbW hwf "alice" "db" ⟨0, "db", "s3cr3t", "alice"⟩
    (by decide) rfl rfl (by unfold countGrants; decide)

end SecretManager

namespace Auth

/-- C5: polling a session whose status is ready (resp. error) returns the
token bundle (resp. the message) and deletes the session, so a second poll
fails NotFound; polling a pending session returns pending and keeps it. -/
theorem getSessionStatus_consuming (w : World) (hnd : keysNodup w.sessions)
    (now : Nat) (sid : String) (s : SessionRec)
    (hlk : lookupA w.sessions sid = some s)
    (hfresh : now - s.created_at ≤ SESSION_TTL) :
    (s.status = .ready →
      (getSessionStatus w now sid).1 = .ok (.ready s.token) ∧
      lookupA (getSessionStatus w now sid).2.sessions sid = none ∧
      ∀ now2, (getSessionStatus (getSessionStatus w now sid).2 now2 sid).1
        = .error .notFound) ∧
    (s.status = .error →
      (getSessionStatus w now sid).1 = .ok (.errored (s.error_message.getD "Login failed")) ∧
      lookupA (getSessionStatus w now sid).2.sessions sid = none ∧
      ∀ now2, (getSessionStatus (getSessionStatus w now sid).2 now2 sid).1
        = .error .notFound) ∧
    (s.status = .pending →
      (getSessionStatus w now sid).1 = .ok .pending ∧
      lookupA (getSessionStatus w now sid).2.sessions sid = some s) := by
  have hlk1 : lookupA (cleanupSessions w.sessions now) sid = some s := by
    apply lookupA_filter_some _ hnd hlk
    simp only [decide_eq_true_eq]
    exact Nat.not_lt.mpr hfresh
  have hnd1 : keysNodup (cleanupSessions w.sessions now) := keysNodup_filter _ hnd
  refine ⟨?_, ?_, ?_⟩
  · intro hst
    have hrun : getSessionStatus w now sid =
        (.ok (.ready s.token),
         { w with sessions := eraseA (cleanupSessions w.sessions now) sid, clock := now }) := by
      unfold getSessionStatus
      simp only [hlk1, hst]
    rw [hrun]
    have hgone : lookupA (eraseA (cleanupSessions w.sessions now) sid) sid = none :=
      lookupA_eraseA_self sid hnd1
    refine ⟨rfl, hgone, ?_⟩
    intro now2
    have hgone2 : lookupA (cleanupSessions (eraseA (cleanupSessions w.sessions now) sid) now2)
        sid = none := lookupA_filter_none _ hgone
    unfold getSessionStatus
    simp only [hgone2]
  · intro hst
    have hrun : getSessionStatus w now sid =
        (.ok (.errored (s.error_message.getD "Login failed")),
         { w with sessions := eraseA (cleanupSessions w.sessions now) sid, clock := now }) := by
      unfold getSessionStatus
      simp only [hlk1, hst]
    rw [hrun]
    have hgone : lookupA (eraseA (cleanupSessions w.sessions now) sid) sid = none :=
      lookupA_eraseA_self sid hnd1
    refine ⟨rfl, hgone, ?_⟩
    intro now2
    have hgone2 : lookupA (cleanupSessions (eraseA (cleanupSessions w.sessions now) sid) now2)
        sid = none := lookupA_filter_none _ hgone
    unfold getSessionStatus
    simp only [hgone2]
  · intro hst
    have hrun : getSessionStatus w now sid =
        (.ok .pending, { w with sessions := cleanupSessions w.sessions now, clock := now }) := by
      unfold getSessionStatus
      simp only [hlk1, hst]
    rw [hrun]
    exact ⟨rfl, hlk1⟩

end Auth

namespace Auth

/-- Witness for C5: consuming read of a ready session, and a pending poll on
the freshly initiated world. -/
theorem getSessionStatus_consuming_witness :
    (getSessionStatus (⟨[], [("sid1", ⟨0, .ready, "scope", "tok1",
        some ⟨"at", "bearer", "", "u"⟩, none, some 5⟩)], 5⟩ : World) 10 "sid1").1
      = .ok (.ready (some ⟨"at", "bearer", "", "u"⟩)) ∧
    (getSessionStatus (getSessionStatus (⟨[], [("sid1", ⟨0, .ready, "scope", "tok1",
        some ⟨"at", "bearer", "", "u"⟩, none, some 5⟩)], 5⟩ : World) 10 "sid1").2 11 "sid1").1
      = .error .notFound ∧
    (getSessionStatus wW 1 "sid1").1 = .ok .pending := by
  have h1 := (getSessionStatus_consuming
      (⟨[], [("sid1", ⟨0, .ready, "scope", "tok1",
        some ⟨"at", "bearer", "", "u"⟩, none, some 5⟩)], 5⟩ : World)
      (by unfold keysNodup; decide) 10 "sid1"
      ⟨0, .ready, "scope", "tok1", some ⟨"at", "bearer", "", "u"⟩, none, some 5⟩
      rfl (by decide)).1 rfl
  have h2 := (getSessionStatus_consuming wW (by unfold keysNodup; decide) 1 "sid1"
      ⟨0, .pending, "scope", "tok1", none, none, none⟩ rfl (by decide)).2.2 rfl
  exact ⟨h1.1, h1.2.2 11, h2.1⟩

/-- The invalidState outcome when the token is not in the store. -/
theorem validateState_absent (w : World) (now : Nat) (tok : String)
    (h : lookupA w.states tok = none) :
    validateState w now tok =
      (.error .invalidState, { w with states := eraseA w.states tok, clock := now }) := by
  unfold validateState
  simp only [h]

/-- C6: a CSRF state token is single-use: validation removes it whether it
succeeds or fails, so a second validation of the same token fails
InvalidState; an absent or over-age (older than 300s) token also fails
InvalidState. -/
theorem validateState_single_use (w : World) (hnd : keysNodup w.states)
    (now now2 : Nat) (tok : String) :
    (lookupA w.states tok = none → (validateState w now tok).1 = .error .invalidState) ∧
    (∀ m, lookupA w.states tok = some m → now - m.created_at > STATE_TTL →
      (validateState w now tok).1 = .error .invalidState) ∧
    lookupA (validateState w now tok).2.states tok = none ∧
    (validateState (validateState w now tok).2 now2 tok).1 = .error .invalidState := by
  have herase : lookupA (eraseA w.states tok) tok = none := lookupA_eraseA_self tok hnd
  have hgone : lookupA (validateState w now tok).2.states tok = none := by
    unfold validateState
    cases hlk : lookupA w.states tok with
    | none => simpa using lookupA_eraseA_self tok hnd
    | some m =>
        by_cases hage : now - m.created_at > STATE_TTL
        · simp only [hlk, if_pos hage]
          exact herase
        · by_cases hsess : (lookupA w.sessions m.session_id).isNone
          · simp only [hlk, if_neg hage, if_pos hsess]
            exact herase
          · simp only [hlk, if_neg hage, if_pos, hsess, if_false]
            exact lookupA_filter_none _ herase
  refine ⟨?_, ?_, hgone, ?_⟩
  · intro h
    rw [validateState_absent w now tok h]
  · intro m hlk hage
    unfold validateState
    simp only [hlk, if_pos hage]
  · rw [validateState_absent _ now2 tok hgone]

/-- Witness for C6: on the freshly initiated world the bogus token and the
over-age token fail InvalidState, and the real token is gone after one
validation (its reuse also fails InvalidState). -/
theorem validateState_single_use_witness :
    (validateState wW 1 "bogus").1 = .error .invalidState ∧
    (validateState wW 301 "tok1").1 = .error .invalidState ∧
    lookupA (validateState wW 1 "tok1").2.states "tok1" = none ∧
    (validateState (validateState wW 1 "tok1").2 2 "tok1").1 = .error .invalidState := by
  refine ⟨?_, ?_, ?_, ?_⟩
  · exact (validateState_single_use wW (by unfold keysNodup; decide) 1 2 "bogus").1 rfl
  · exact (validateState_single_use wW (by unfold keysNodup; decide) 301 2 "tok1").2.1
      ⟨0, "sid1"⟩ rfl (by decide)
  · exact (validateState_single_use wW (by unfold keysNodup; decide) 1 2 "tok1").2.2.1
  · exact (validateState_single_use wW (by unfold keysNodup; decide) 1 2 "tok1").2.2.2

end Auth

namespace Auth

/-- C7: for direct (pat) credentials the `token` scheme is tried before
`Bearer`; a 200 under `token` answers with exactly one provider call and
`Bearer` is never attempted; `Bearer` is attempted only after a 401 under
`token`; a final 401 yields InvalidCredential, and any other non-success
response (or a transport error) yields UpstreamUnavailable. -/
theorem fetchGithubUser_direct_schemes (f : String → UserApiResp) :
    (∀ p, f "token" = .resp 200 p → fetchGithubUser f .pat = (.ok p, ["token"])) ∧
    (f "token" = .netError →
      fetchGithubUser f .pat = (.error .upstreamUnavailable, ["token"])) ∧
    (∀ st p, f "token" = .resp st p → st ≠ 200 → st ≠ 401 →
      fetchGithubUser f .pat = (.error .upstreamUnavailable, ["token"])) ∧
    (∀ p p2, f "token" = .resp 401 p → f "Bearer" = .resp 200 p2 →
      fetchGithubUser f .pat = (.ok p2, ["token", "Bearer"])) ∧
    (∀ p p2, f "token" = .resp 401 p → f "Bearer" = .resp 401 p2 →
      fetchGithubUser f .pat = (.error .invalidCredential, ["token", "Bearer"])) ∧
    (∀ p st p2, f "token" = .resp 401 p → f "Bearer" = .resp st p2 → st ≠ 200 → st ≠ 401 →
      fetchGithubUser f .pat = (.error .upstreamUnavailable, ["token", "Bearer"])) ∧
    (∀ p, f "token" = .resp 401 p → f "Bearer" = .netError →
      fetchGithubUser f .pat = (.error .upstreamUnavailable, ["token", "Bearer"])) ∧
    ("Bearer" ∈ (fetchGithubUser f .pat).2 → ∃ p, f "token" = .resp 401 p) := by
  refine ⟨?_, ?_, ?_, ?_, ?_, ?_, ?_, ?_⟩
  · intro p h
    simp [fetchGithubUser, fetchLoop, h]
  · intro h
    simp [fetchGithubUser, fetchLoop, h]
  · intro st p h h200 h401
    simp [fetchGithubUser, fetchLoop, h, h200, h401]
  · intro p p2 h hb
    simp [fetchGithubUser, fetchLoop, h, hb]
  · intro p p2 h hb
    simp [fetchGithubUser, fetchLoop, h, hb]
  · intro p st p2 h hb h200 h401
    simp [fetchGithubUser, fetchLoop, h, hb, h200, h401]
  · intro p h hb
    simp [fetchGithubUser, fetchLoop, h, hb]
  · intro hmem
    cases hf : f "token" with
    | netError => simp [fetchGithubUser, fetchLoop, hf] at hmem
    | resp st p =>
        by_cases h200 : st = 200
        · subst h200
          simp [fetchGithubUser, fetchLoop, hf] at hmem
        · by_cases h401 : st = 401
          · subst h401
            exact ⟨p, rfl⟩
          · simp [fetchGithubUser, fetchLoop, hf, h200, h401] at hmem

/-- Witness for C7 at concrete providers. -/
theorem fetchGithubUser_direct_schemes_witness :
    fetchGithubUser (fun _ => .resp 200 "u") .pat = (.ok "u", ["token"]) ∧
    fetchGithubUser (fun s => if s = "token" then .resp 401 "x" else .resp 200 "u") .pat
      = (.ok "u", ["token", "Bearer"]) ∧
    fetchGithubUser (fun _ => .resp 401 "x") .pat
      = (.error .invalidCredential, ["token", "Bearer"]) ∧
    fetchGithubUser (fun _ => .resp 500 "x") .pat
      = (.error .upstreamUnavailable, ["token"]) := by
  refine ⟨?_, ?_, ?_, ?_⟩
  · exact (fetchGithubUser_direct_schemes (fun _ => .resp 200 "u")).1 "u" rfl
  · exact (fetchGithubUser_direct_schemes
      (fun s => if s = "token" then .resp 401 "x" else .resp 200 "u")).2.2.2.1
      "x" "u" (by decide) (by decide)
  · exact (fetchGithubUser_direct_schemes (fun _ => .resp 401 "x")).2.2.2.2.1 "x" "x" rfl rfl
  · exact (fetchGithubUser_direct_schemes (fun _ => .resp 500 "x")).2.2.1 500 "x" rfl
      (by decide) (by decide)

end Auth

namespace Auth

/-- C8 counterexample: a callback whose state token is expired (age 301s >
300s) fails InvalidState, yet the session it maps to is left `pending` — no
error is recorded on it, and a subsequent poll observes pending, not error.
The claim that every failure path of exchangeCode records the failure on the
associated session is therefore false. -/
theorem callback_invalidState_leaves_pending :
    (callbackOp wW 301 "tok1" (.resp 200 none (some "at") none none) (.ok "user")).1
      = .error .invalidState ∧
    (getSessionStatus
      (callbackOp wW 301 "tok1" (.resp 200 none (some "at") none none) (.ok "user")).2
      301 "sid1").1 = .ok .pending :=
  ⟨rfl, rfl⟩

/-- After `_set_session_error` on a present session, the failure is recorded
and observable by a poll. -/
theorem recordsError_setSessionError (w1 : World) (sid : String) (s : SessionRec)
    (hs : lookupA w1.sessions sid = some s) (msg : String) (now : Nat) :
    recordsError (setSessionError w1 sid msg now) sid now := by
  unfold setSessionError
  simp only [hs]
  refine ⟨{ s with status := .error, error_message := some msg, completed_at := some now },
    lookupA_updIns_self _ _ _, rfl, rfl, rfl, ?_⟩
  intro hnd2 now2 hfresh
  have hlk2 : lookupA (cleanupSessions (updIns w1.sessions sid
      { s with status := .error, error_message := some msg, completed_at := some now }) now2)
      sid = some { s with status := .error, error_message := some msg,
                          completed_at := some now } := by
    apply lookupA_filter_some _ hnd2 (lookupA_updIns_self _ _ _)
    simp only [decide_eq_true_eq]
    exact Nat.not_lt.mpr hfresh
  unfold getSessionStatus
  simp only [hlk2]
  exact ⟨_, rfl⟩

/-- C8 amended: the exchangeCode failure paths reached after state validation
has succeeded and the session is still present — transport failure
(UpstreamUnavailable) and provider refusal or missing access token
(ProviderRejected) — record the failure on the session (status error, message,
completion stamp) before the error propagates, so a poll observes the error;
the InvalidState and SessionExpired paths record nothing. -/
theorem exchangeCode_records_post_validation_failures (w : World) (now : Nat)
    (tok sid : String) (w1 : World) (hv : validateState w now tok = (.ok sid, w1))
    (s : SessionRec) (hs : lookupA w1.sessions sid = some s) :
    ((exchangeCode w now tok .netError).1 = .error .upstreamUnavailable ∧
      recordsError (exchangeCode w now tok .netError).2 sid now) ∧
    (∀ st d a t sc, st ≠ 200 →
      (exchangeCode w now tok (.resp st d a t sc)).1 = .error .providerRejected ∧
      recordsError (exchangeCode w now tok (.resp st d a t sc)).2 sid now) ∧
    (∀ d t sc,
      (exchangeCode w now tok (.resp 200 d none t sc)).1 = .error .providerRejected ∧
      recordsError (exchangeCode w now tok (.resp 200 d none t sc)).2 sid now) := by
  refine ⟨?_, ?_, ?_⟩
  · have hrun : exchangeCode w now tok .netError =
        (.error .upstreamUnavailable,
         setSessionError w1 sid "Failed to reach GitHub for token exchange" now) := by
      unfold exchangeCode
      simp only [hv, hs]
    rw [hrun]
    exact ⟨rfl, recordsError_setSessionError w1 sid s hs _ now⟩
  · intro st d a t sc h200
    have hrun : exchangeCode w now tok (.resp st d a t sc) =
        (.error .providerRejected,
         setSessionError w1 sid (d.getD "GitHub declined the authorization request") now) := by
      unfold exchangeCode
      simp only [hv, hs]
      rw [if_pos h200]
    rw [hrun]
    exact ⟨rfl, recordsError_setSessionError w1 sid s hs _ now⟩
  · intro d t sc
    have hrun : exchangeCode w now tok (.resp 200 d none t sc) =
        (.error .providerRejected,
         setSessionError w1 sid (d.getD "Missing access token in GitHub response") now) := by
      unfold exchangeCode
      simp only [hv, hs]
      rw [if_neg (by simp)]
    rw [hrun]
    exact ⟨rfl, recordsError_setSessionError w1 sid s hs _ now⟩

/-- Witness for the amended C8 on the freshly initiated world. -/
theorem exchangeCode_records_failures_witness :
    (exchangeCode wW 10 "tok1" .netError).1 = .error .upstreamUnavailable ∧
    recordsError (exchangeCode wW 10 "tok1" .netError).2 "sid1" 10 ∧
    (exchangeCode wW 10 "tok1" (.resp 500 (some "boom") none none none)).1
      = .error .providerRejected ∧
    recordsError (exchangeCode wW 10 "tok1" (.resp 500 (some "boom") none none none)).2
      "sid1" 10 := by
  have h := exchangeCode_records_post_validation_failures wW 10 "tok1" "sid1"
    ((validateState wW 10 "tok1").2) rfl
    ⟨0, .pending, "scope", "tok1", none, none, none⟩ rfl
  have h2 := h.2.1 500 (some "boom") none none none (by decide)
  exact ⟨h.1.1, h.1.2, h2.1, h2.2⟩

end Auth

namespace Auth

/-- A binding found after a pop is a binding of the original store. -/
theorem lookupA_eraseA_sub {α : Type} {l : List (String × α)} {k t : String} {v : α}
    (hnd : keysNodup l) (h : lookupA (eraseA l k) t = some v) :
    lookupA l t = some v := by
  by_cases ht : k = t
  · subst ht
    rw [lookupA_eraseA_self k hnd] at h
    cases h
  · rw [lookupA_eraseA_ne l k t ht] at h
    exact h

/-- Generic invariant-preservation step: time moves forward, the state store
only loses bindings, and every fresh pending session binding survives into
the new session store. -/
theorem inv_step_general (w : World) (hw : Inv w) (now : Nat) (hc : w.clock ≤ now)
    (S1 : List (String × StateRec)) (L1 : List (String × SessionRec))
    (hndS : keysNodup S1) (hndL : keysNodup L1)
    (hSsub : ∀ t m, lookupA S1 t = some m → lookupA w.states t = some m)
    (hLsub : ∀ sid s, lookupA w.sessions sid = some s → s.status = .pending →
        now - s.created_at ≤ SESSION_TTL → lookupA L1 sid = some s) :
    Inv { states := S1, sessions := L1, clock := now } := by
  refine ⟨hndS, hndL, ?_, ?_⟩
  · intro tok m hlk hage
    have hold := hSsub tok m hlk
    have hage0 : w.clock - m.created_at ≤ STATE_TTL :=
      le_trans (Nat.sub_le_sub_right hc _) hage
    obtain ⟨s, hs, hcre, hpend⟩ := hw.present tok m hold hage0
    refine ⟨s, ?_, hcre, hpend⟩
    apply hLsub _ _ hs hpend
    rw [hcre]
    exact le_trans hage (by norm_num [STATE_TTL, SESSION_TTL])
  · intro t1 t2 m1 m2 h1 h2 hne ha1 ha2
    exact hw.inj t1 t2 m1 m2 (hSsub _ _ h1) (hSsub _ _ h2) hne
      (le_trans (Nat.sub_le_sub_right hc _) ha1)
      (le_trans (Nat.sub_le_sub_right hc _) ha2)

end Auth

namespace Auth

theorem cleanupStates_nodup {l : List (String × StateRec)} (now : Nat)
    (hnd : keysNodup l) : keysNodup (cleanupStates l now) := by
  unfold cleanupStates
  exact keysNodup_filter _ hnd

theorem cleanupSessions_nodup {l : List (String × SessionRec)} (now : Nat)
    (hnd : keysNodup l) : keysNodup (cleanupSessions l now) := by
  unfold cleanupSessions
  exact keysNodup_filter _ hnd

theorem cleanupStates_sub {l : List (String × StateRec)} {now : Nat} {t : String}
    {m : StateRec} (hnd : keysNodup l) (h : lookupA (cleanupStates l now) t = some m) :
    lookupA l t = some m := by
  unfold cleanupStates at h
  exact (lookupA_of_filter_some hnd h).1

theorem cleanupSessions_sub {l : List (String × SessionRec)} {now : Nat} {t : String}
    {s : SessionRec} (hnd : keysNodup l) (h : lookupA (cleanupSessions l now) t = some s) :
    lookupA l t = some s := by
  unfold cleanupSessions at h
  exact (lookupA_of_filter_some hnd h).1

theorem cleanupStates_keeps {l : List (String × StateRec)} {now : Nat} {t : String}
    {m : StateRec} (hnd : keysNodup l) (h : lookupA l t = some m)
    (hage : now - m.created_at ≤ STATE_TTL) :
    lookupA (cleanupStates l now) t = some m := by
  unfold cleanupStates
  apply lookupA_filter_some _ hnd h
  simp only [decide_eq_true_eq]
  exact Nat.not_lt.mpr hage

theorem cleanupSessions_keeps {l : List (String × SessionRec)} {now : Nat} {t : String}
    {s : SessionRec} (hnd : keysNodup l) (h : lookupA l t = some s)
    (hage : now - s.created_at ≤ SESSION_TTL) :
    lookupA (cleanupSessions l now) t = some s := by
  unfold cleanupSessions
  apply lookupA_filter_some _ hnd h
  simp only [decide_eq_true_eq]
  exact Nat.not_lt.mpr hage

/-- `initiate_login` preserves the invariant when the generated identifiers
are fresh. -/
theorem inv_initiate (w : World) (hw : Inv w) (now : Nat) (sid tok scope : String)
    (hc : w.clock <= now) (hsid : lookupA w.sessions sid = none)
    (htok : lookupA w.states tok = none) :
    Inv (initiateLogin w now sid tok scope) := by
  have hndS1 : keysNodup (cleanupStates w.states now) := cleanupStates_nodup now hw.ndStates
  have hndL1 : keysNodup (cleanupSessions w.sessions now) :=
    cleanupSessions_nodup now hw.ndSessions
  unfold initiateLogin
  refine ⟨keysNodup_updIns _ _ hndS1, keysNodup_updIns _ _ hndL1, ?_, ?_⟩
  · intro t m hlk hage
    dsimp only at hlk hage ⊢
    by_cases ht : tok = t
    · subst ht
      rw [lookupA_updIns_self] at hlk
      injection hlk with hm
      subst hm
      exact ⟨_, lookupA_updIns_self _ _ _, rfl, rfl⟩
    · rw [lookupA_updIns_ne _ tok t _ ht] at hlk
      have hold := cleanupStates_sub hw.ndStates hlk
      have hage0 : w.clock - m.created_at <= STATE_TTL :=
        le_trans (Nat.sub_le_sub_right hc _) hage
      obtain ⟨s, hs, hcre, hpend⟩ := hw.present t m hold hage0
      have hne2 : sid ≠ m.session_id := by
        intro he
        rw [← he, hsid] at hs
        cases hs
      refine ⟨s, ?_, hcre, hpend⟩
      rw [lookupA_updIns_ne _ sid m.session_id _ hne2]
      apply cleanupSessions_keeps hw.ndSessions hs
      rw [hcre]
      exact le_trans hage (by norm_num [STATE_TTL, SESSION_TTL])
  · intro t1 t2 m1 m2 h1 h2 hne ha1 ha2
    dsimp only at h1 h2 ha1 ha2 ⊢
    by_cases e1 : tok = t1
    · subst e1
      rw [lookupA_updIns_self] at h1
      injection h1 with hm1
      subst hm1
      by_cases e2 : tok = t2
      · exact absurd e2 hne
      · rw [lookupA_updIns_ne _ _ _ _ e2] at h2
        have hold2 := cleanupStates_sub hw.ndStates h2
        have hage2 : w.clock - m2.created_at <= STATE_TTL :=
          le_trans (Nat.sub_le_sub_right hc _) ha2
        obtain ⟨s2, hs2, _, _⟩ := hw.present t2 m2 hold2 hage2
        intro he
        dsimp only at he
        rw [← he, hsid] at hs2
        cases hs2
    · by_cases e2 : tok = t2
      · subst e2
        rw [lookupA_updIns_self] at h2
        injection h2 with hm2
        subst hm2
        rw [lookupA_updIns_ne _ _ _ _ e1] at h1
        have hold1 := cleanupStates_sub hw.ndStates h1
        have hage1 : w.clock - m1.created_at <= STATE_TTL :=
          le_trans (Nat.sub_le_sub_right hc _) ha1
        obtain ⟨s1, hs1, _, _⟩ := hw.present t1 m1 hold1 hage1
        intro he
        dsimp only at he
        rw [he, hsid] at hs1
        cases hs1
      · rw [lookupA_updIns_ne _ _ _ _ e1] at h1
        rw [lookupA_updIns_ne _ _ _ _ e2] at h2
        exact hw.inj t1 t2 m1 m2 (cleanupStates_sub hw.ndStates h1)
          (cleanupStates_sub hw.ndStates h2) hne
          (le_trans (Nat.sub_le_sub_right hc _) ha1)
          (le_trans (Nat.sub_le_sub_right hc _) ha2)

end Auth

namespace Auth

/-- `_validate_state` preserves the invariant on every branch. -/
theorem inv_validate (w : World) (hw : Inv w) (now : Nat) (hc : w.clock ≤ now)
    (tok : String) : Inv ((validateState w now tok).2) := by
  have herased : ∀ t (m : StateRec), lookupA (eraseA w.states tok) t = some m →
      lookupA w.states t = some m := fun t m h => lookupA_eraseA_sub hw.ndStates h
  unfold validateState
  cases hlk : lookupA w.states tok with
  | none =>
      dsimp only
      exact inv_step_general w hw now hc _ _ (keysNodup_eraseA _ hw.ndStates)
        hw.ndSessions herased (fun _ _ h _ _ => h)
  | some m =>
      dsimp only
      by_cases hage : now - m.created_at > STATE_TTL
      · rw [if_pos hage]
        exact inv_step_general w hw now hc _ _ (keysNodup_eraseA _ hw.ndStates)
          hw.ndSessions herased (fun _ _ h _ _ => h)
      · rw [if_neg hage]
        by_cases hsess : (lookupA w.sessions m.session_id).isNone
        · rw [if_pos hsess]
          exact inv_step_general w hw now hc _ _ (keysNodup_eraseA _ hw.ndStates)
            hw.ndSessions herased (fun _ _ h _ _ => h)
        · rw [if_neg hsess]
          apply inv_step_general w hw now hc _ _
            (cleanupStates_nodup now (keysNodup_eraseA _ hw.ndStates))
            (cleanupSessions_nodup now hw.ndSessions)
          · intro t m2 h
            exact herased t m2 (cleanupStates_sub (keysNodup_eraseA _ hw.ndStates) h)
          · intro sid s h hpend hfr
            exact cleanupSessions_keeps hw.ndSessions h hfr

/-- Inversion of a successful `_validate_state`. -/
theorem validateState_ok_elim (w : World) (now : Nat) (tok sid : String) (w1 : World)
    (hv : validateState w now tok = (.ok sid, w1)) :
    ∃ mtok, lookupA w.states tok = some mtok ∧ ¬ now - mtok.created_at > STATE_TTL ∧
      sid = mtok.session_id ∧
      w1 = { states := cleanupStates (eraseA w.states tok) now,
             sessions := cleanupSessions w.sessions now, clock := now } := by
  unfold validateState at hv
  cases hlk : lookupA w.states tok with
  | none =>
      simp only [hlk] at hv
      simp at hv
  | some m =>
      simp only [hlk] at hv
      by_cases hage : now - m.created_at > STATE_TTL
      · rw [if_pos hage] at hv
        simp at hv
      · rw [if_neg hage] at hv
        by_cases hsess : (lookupA w.sessions m.session_id).isNone
        · rw [if_pos hsess] at hv
          simp at hv
        · rw [if_neg hsess] at hv
          injection hv with h1 h2
          injection h1 with h1
          exact ⟨m, rfl, hage, h1.symm, h2.symm⟩

/-- Overwriting a session binding preserves the invariant provided no live
unexpired state token maps to it. -/
theorem inv_update_session (v : World) (hv : Inv v) (sid : String) (snew : SessionRec)
    (hnostate : ∀ t m, lookupA v.states t = some m →
      v.clock - m.created_at ≤ STATE_TTL → m.session_id ≠ sid) :
    Inv { v with sessions := updIns v.sessions sid snew } := by
  refine ⟨hv.ndStates, keysNodup_updIns _ _ hv.ndSessions, ?_, hv.inj⟩
  intro t m hlk hage
  obtain ⟨s, hs, hcre, hpend⟩ := hv.present t m hlk hage
  refine ⟨s, ?_, hcre, hpend⟩
  rw [lookupA_updIns_ne _ sid m.session_id _ (Ne.symm (hnostate t m hlk hage))]
  exact hs

/-- The world after the callback route is either the post-validation world
itself or that world with the binding of the validated session replaced. -/
theorem callbackOp_world_shape (w : World) (now : Nat) (tok : String) (tr : TokenResp)
    (ur : Except AuthErr String) (sid : String) (w1 : World)
    (hv : validateState w now tok = (.ok sid, w1)) :
    (callbackOp w now tok tr ur).2 = w1 ∨
    ∃ snew, (callbackOp w now tok tr ur).2
      = { w1 with sessions := updIns w1.sessions sid snew } := by
  unfold callbackOp exchangeCode
  simp only [hv]
  cases hs : lookupA w1.sessions sid with
  | none =>
      dsimp only
      exact Or.inl rfl
  | some s =>
      dsimp only
      cases tr with
      | netError =>
          dsimp only
          right
          refine ⟨{ s with status := .error, error_message := some "Failed to reach GitHub for token exchange", completed_at := some now }, ?_⟩
          unfold setSessionError
          simp only [hs]
      | resp st d a t sc =>
          dsimp only
          by_cases h200 : st = 200
          · subst h200
            rw [if_neg (by simp)]
            cases a with
            | none =>
                dsimp only
                right
                refine ⟨{ s with status := .error, error_message := some (d.getD "Missing access token in GitHub response"), completed_at := some now }, ?_⟩
                unfold setSessionError
                simp only [hs]
            | some atok =>
                dsimp only
                cases ur with
                | error e =>
                    dsimp only
                    right
                    refine ⟨{ s with status := .error, error_message := some "Login failed", completed_at := some now }, ?_⟩
                    unfold setSessionError
                    simp only [hs]
                | ok uid =>
                    dsimp only
                    right
                    refine ⟨{ s with status := .ready, completed_at := some now, token := some ⟨atok, t.getD "bearer", sc.getD "", uid⟩ }, ?_⟩
                    unfold completeSession
                    simp only [hs]
          · rw [if_pos h200]
            right
            refine ⟨{ s with status := .error, error_message := some (d.getD "GitHub declined the authorization request"), completed_at := some now }, ?_⟩
            unfold setSessionError
            simp only [hs]

/-- The callback route preserves the invariant. -/
theorem inv_callback (w : World) (hw : Inv w) (now : Nat) (hc : w.clock ≤ now)
    (tok : String) (tr : TokenResp) (ur : Except AuthErr String) :
    Inv ((callbackOp w now tok tr ur).2) := by
  cases hv : validateState w now tok with
  | mk r w1 =>
      have hw1 : Inv w1 := by
        have h := inv_validate w hw now hc tok
        rw [hv] at h
        exact h
      cases r with
      | error e =>
          have hcb : callbackOp w now tok tr ur = (.error e, w1) := by
            unfold callbackOp exchangeCode
            simp only [hv]
          rw [hcb]
          exact hw1
      | ok sid =>
          obtain ⟨mtok, hlkm, hagem, hsid, hw1eq⟩ := validateState_ok_elim w now tok sid w1 hv
          rcases callbackOp_world_shape w now tok tr ur sid w1 hv with hsh | ⟨snew, hsh⟩
          · rw [hsh]
            exact hw1
          · rw [hsh]
            apply inv_update_session w1 hw1 sid snew
            intro t m hlk2 hage2
            rw [hw1eq] at hlk2 hage2
            dsimp only at hlk2 hage2
            have h3 := cleanupStates_sub (keysNodup_eraseA _ hw.ndStates) hlk2
            have ht : t ≠ tok := by
              intro he
              subst he
              rw [lookupA_eraseA_self t hw.ndStates] at h3
              cases h3
            have h4 := lookupA_eraseA_sub hw.ndStates h3
            rw [hsid]
            exact hw.inj t tok m mtok h4 hlkm ht
              (le_trans (Nat.sub_le_sub_right hc _) hage2)
              (le_trans (Nat.sub_le_sub_right hc _) (Nat.not_lt.mp hagem))

/-- Polling preserves the invariant: only sessions in a terminal status (or
expired ones) are dropped, and pending sessions of unexpired states survive. -/
theorem inv_poll (w : World) (hw : Inv w) (now : Nat) (hc : w.clock ≤ now)
    (sid : String) : Inv ((getSessionStatus w now sid).2) := by
  unfold getSessionStatus
  dsimp only
  cases hlk : lookupA (cleanupSessions w.sessions now) sid with
  | none =>
      dsimp only
      exact inv_step_general w hw now hc _ _ hw.ndStates
        (cleanupSessions_nodup now hw.ndSessions) (fun _ _ h => h)
        (fun _ s h hpend hfr => cleanupSessions_keeps hw.ndSessions h hfr)
  | some s =>
      have hterm : ∀ sid2 (s2 : SessionRec), lookupA w.sessions sid2 = some s2 →
          s2.status = .pending → now - s2.created_at ≤ SESSION_TTL → s.status ≠ .pending →
          lookupA (eraseA (cleanupSessions w.sessions now) sid) sid2 = some s2 := by
        intro sid2 s2 h hpend hfr hnp
        have hkeep : lookupA (cleanupSessions w.sessions now) sid2 = some s2 :=
          cleanupSessions_keeps hw.ndSessions h hfr
        have hne : sid ≠ sid2 := by
          intro he
          subst he
          rw [hlk] at hkeep
          injection hkeep with he2
          subst he2
          exact hnp hpend
        rw [lookupA_eraseA_ne _ sid sid2 hne]
        exact hkeep
      cases hst : s.status with
      | pending =>
          simp only [hst]
          exact inv_step_general w hw now hc _ _ hw.ndStates
            (cleanupSessions_nodup now hw.ndSessions) (fun _ _ h => h)
            (fun _ s2 h hpend hfr => cleanupSessions_keeps hw.ndSessions h hfr)
      | ready =>
          simp only [hst]
          exact inv_step_general w hw now hc _ _ hw.ndStates
            (keysNodup_eraseA _ (cleanupSessions_nodup now hw.ndSessions))
            (fun _ _ h => h)
            (fun sid2 s2 h hpend hfr => hterm sid2 s2 h hpend hfr (by rw [hst]; simp))
      | error =>
          simp only [hst]
          exact inv_step_general w hw now hc _ _ hw.ndStates
            (keysNodup_eraseA _ (cleanupSessions_nodup now hw.ndSessions))
            (fun _ _ h => h)
            (fun sid2 s2 h hpend hfr => hterm sid2 s2 h hpend hfr (by rw [hst]; simp))

/-- Every admissible event preserves the invariant. -/
theorem inv_stepW (w : World) (hw : Inv w) (e : Ev) (hwf : WfEv w e) :
    Inv (stepW w e) := by
  cases e with
  | initiate now sid tok scope =>
      exact inv_initiate w hw now sid tok scope hwf.1 hwf.2.1 hwf.2.2
  | callback now code tok tr ur => exact inv_callback w hw now hwf tok tr ur
  | poll now sid => exact inv_poll w hw now hwf sid

/-- Every reachable world satisfies the invariant. -/
theorem inv_of_reach {w : World} (h : Reach w) : Inv w := by
  induction h with
  | init =>
      refine ⟨?_, ?_, ?_, ?_⟩
      · simp [World.init, keysNodup]
      · simp [World.init, keysNodup]
      · intro t m h
        simp [World.init, lookupA] at h
      · intro t1 t2 m1 m2 h1
        simp [World.init, lookupA] at h1
  | step hr hwf ih => exact inv_stepW _ ih _ hwf

end Auth

namespace Auth

/-- C9: in every sequential execution from empty stores with monotone time,
`_validate_state` never takes its SessionExpired branch: whenever the popped
state token is present and at most 300s old, the session it maps to is still
in the session store. -/
theorem validateState_sessionExpired_unreachable (w : World) (hr : Reach w)
    (now : Nat) (hc : w.clock ≤ now) (tok : String) :
    (validateState w now tok).1 ≠ .error .sessionExpired := by
  have hw := inv_of_reach hr
  unfold validateState
  cases hlk : lookupA w.states tok with
  | none => simp
  | some m =>
      dsimp only
      by_cases hage : now - m.created_at > STATE_TTL
      · rw [if_pos hage]
        simp
      · rw [if_neg hage]
        have hfresh : w.clock - m.created_at ≤ STATE_TTL :=
          le_trans (Nat.sub_le_sub_right hc _) (Nat.not_lt.mp hage)
        obtain ⟨s, hs, _, _⟩ := hw.present tok m hlk hfresh
        rw [if_neg (by simp [hs])]
        simp

/-- Witness for C9 on the world reached by one initiate event: validating the
live token at time 10 does not yield SessionExpired (it succeeds). -/
theorem validateState_sessionExpired_unreachable_witness :
    (validateState wW 10 "tok1").1 ≠ .error .sessionExpired :=
  validateState_sessionExpired_unreachable wW
    (Reach.step Reach.init (e := .initiate 0 "sid1" "tok1" "scope") ⟨by decide, rfl, rfl⟩)
    10 (by decide) "tok1"

end Auth
